import Mathlib

/-!
Verification of the clinique planning application (`app1.py`).

The file embeds the two algorithmic stages of the program:

* the sequencing post-processor `appliquer_ordonnancement_horaire`
  (grouping by room/day, dispatching-rule sort, greedy slot placement
  with a pause between cases), and
* the allocation optimizer's model construction and solution decoding
  (the compatibility dictionary `m`, the `Compat` bound on `y`, and the
  `planning_details` decoder).

Python integers are embedded as `Int` (note that `Int./` in Lean is
Euclidean division, which agrees with Python's floor `//` and `%` for
the positive divisor 60 used by the program).  The solver's floating
point variable values, which the code only compares against `0.5`, are
embedded as `ℚ`.  Python's `str.split(':')`, `int(...)` on digit
strings, `f"{n:02d}"` formatting, string comparison and stable
`sorted` are embedded as structurally recursive functions so that
every definition evaluates by `decide`/`rfl`.
-/

namespace Clinique

/-- One per-patient record of the planning pipeline.  In the Python code
this is a dict; fields that a given stage has not filled yet hold the
empty string / `0` / `none` (the decoder writes `''` into `jour_numero`
for an unallocated patient, embedded as `none`). -/
structure PatientRec where
  patient_id : String
  patient_nom : String
  patient_duree : Int
  priorite : Int
  salle_id : String
  salle_nom : String
  jour_numero : Option Int
  jour_date : String
  chirurgiens : String
  statut : String
  heure_debut : String
  heure_fin : String
  heure_debut_min : Int
  heure_fin_min : Int
  deriving DecidableEq

/-- Build a sequencer-input record, leaving the fields the sequencer
does not read empty. -/
def mkBrut (pid : String) (duree priorite : Int) (salle : String)
    (jour : Option Int) (chirs statut : String) : PatientRec :=
  ⟨pid, "", duree, priorite, salle, "", jour, "", chirs, statut, "", "", 0, 0⟩

/-- Python `s.split(':')` on the character list of `s` (accumulator holds
the current chunk reversed). -/
def splitOnColon : List Char → List Char → List (List Char)
  | [], acc => [acc.reverse]
  | c :: cs, acc =>
    if c = ':' then acc.reverse :: splitOnColon cs []
    else splitOnColon cs (c :: acc)

/-- Python `int(...)` on a string of decimal digits. -/
def intOfDigits (cs : List Char) : Int :=
  cs.foldl (fun acc c => acc * 10 + ((c.toNat : Int) - ('0'.toNat : Int))) 0

/-- `int(s.split(':')[0])*60 + int(s.split(':')[1])` (lines 39-40 of
`app1.py`).  An input without a `':'` would raise in Python; here it
yields `0`, which no claim exercises. -/
def parseHHMM (s : String) : Int :=
  match splitOnColon s.data [] with
  | h :: m :: _ => intOfDigits h * 60 + intOfDigits m
  | _ => 0

/-- Python `f"{n:02d}"` for the values the program formats. -/
def pad2 (n : Int) : String :=
  if n < 10 then "0" ++ toString n else toString n

/-- `f"{n//60:02d}:{n%60:02d}"` (lines 110-111 of `app1.py`).  Python
`//` and `%` are floor division and nonnegative remainder for the
positive divisor 60, i.e. Lean's `Int./` and `Int.%`. -/
def fmtHHMM (n : Int) : String :=
  pad2 (n / 60) ++ ":" ++ pad2 (n % 60)

/-- Python string comparison `<`: lexicographic on code points. -/
def lexLt : List Char → List Char → Bool
  | [], [] => false
  | [], _ :: _ => true
  | _ :: _, [] => false
  | a :: as, b :: bs => if a < b then true else if b < a then false else lexLt as bs

/-- Insert into a sorted list, keeping `a` before `b` whenever `le a b`:
the unique stable sort for a total preorder, hence extensionally equal
to Python's stable `sorted`. -/
def insort {α : Type} (le : α → α → Bool) (a : α) : List α → List α
  | [] => [a]
  | b :: l => if le a b then a :: b :: l else b :: insort le a l

/-- Stable insertion sort, embedding Python's `sorted(..., key=...)`. -/
def stableSort {α : Type} (le : α → α → Bool) (l : List α) : List α :=
  l.foldr (insort le) []

/-- The dispatching-rule branch (lines 69-95 of `app1.py`).
`duree_desc` is `sorted(key=duree, reverse=True)` (stable descending),
`priorite` ascending priority, `fifo` ascending patient id, `mixte`
ascending (priority, -duration); any other string falls into the final
`else`, which repeats the `duree_desc` sort (the code's default; no
error is raised). -/
def sortRule (regle : String) (patients : List PatientRec) : List PatientRec :=
  if regle = "duree_desc" then
    stableSort (fun a b => decide (b.patient_duree ≤ a.patient_duree)) patients
  else if regle = "priorite" then
    stableSort (fun a b => decide (a.priorite ≤ b.priorite)) patients
  else if regle = "fifo" then
    stableSort (fun a b => !lexLt b.patient_id.data a.patient_id.data) patients
  else if regle = "mixte" then
    stableSort (fun a b =>
      decide (a.priorite < b.priorite) ||
        (decide (a.priorite = b.priorite) && decide (b.patient_duree ≤ a.patient_duree))) patients
  else
    stableSort (fun a b => decide (b.patient_duree ≤ a.patient_duree)) patients

/-- The grouping key `(patient.get('salle_id'), patient.get('jour_numero'))`. -/
def cleDe (p : PatientRec) : String × Option Int :=
  (p.salle_id, p.jour_numero)

/-- Appending a key to a Python dict's key sequence: a new key goes to
the back, an existing key leaves the sequence unchanged. -/
def insertKey (ks : List (String × Option Int)) (k : String × Option Int) :
    List (String × Option Int) :=
  if k ∈ ks then ks else ks ++ [k]

/-- The keys of the `groupes` dict in insertion (first-seen) order. -/
def keysOf (l : List PatientRec) : List (String × Option Int) :=
  l.foldl (fun ks p => insertKey ks (cleDe p)) []

/-- The group stored under key `k`: the members with that key, in input
order. -/
def groupOf (l : List PatientRec) (k : String × Option Int) : List PatientRec :=
  l.filter (fun p => decide (cleDe p = k))

/-- The record update on a successful placement (lines 106-117): start
and end times in "HH:MM" and in minutes; the statut is untouched. -/
def schedRec (p : PatientRec) (cur : Int) : PatientRec :=
  { p with heure_debut := fmtHHMM cur,
           heure_fin := fmtHHMM (cur + p.patient_duree),
           heure_debut_min := cur,
           heure_fin_min := cur + p.patient_duree }

/-- The record update on overflow (lines 122-126): flagged
`Non planifié (hors créneau)` with `N/A` times. -/
def overflowRec (p : PatientRec) : PatientRec :=
  { p with statut := "Non planifié (hors créneau)",
           heure_debut := "N/A", heure_fin := "N/A" }

/-- The greedy slot-assignment loop (lines 97-126): a patient fits when
`heure_courante + duree ≤ h_debut + capacite`; on success the cursor
advances past the pause, otherwise the patient overflows and the cursor
is left unchanged. -/
def placeGroup (hDebut capacite pause : Int) : Int → List PatientRec → List PatientRec
  | _, [] => []
  | heureCourante, p :: rest =>
    if heureCourante + p.patient_duree ≤ hDebut + capacite then
      schedRec p heureCourante
        :: placeGroup hDebut capacite pause (heureCourante + p.patient_duree + pause) rest
    else
      overflowRec p :: placeGroup hDebut capacite pause heureCourante rest

/-- Lines 129-132: a never-allocated patient passes through with `N/A`
times (its statut is untouched). -/
def markNA (p : PatientRec) : PatientRec :=
  { p with heure_debut := "N/A", heure_fin := "N/A" }

/-- The sequenced (grouped, sorted, placed) part of the output: the
`planning_final` list right before step 5 of the function.  (`h_debut`,
`h_fin`, `capacite` and the `planifies` split of the code are inlined.) -/
def sequencedPart (brut : List PatientRec) (heure_debut heure_fin : String)
    (pause : Int) (regle : String) : List PatientRec :=
  (keysOf (brut.filter (fun p => decide (p.statut = "Planifié")))).flatMap
    (fun c => placeGroup (parseHHMM heure_debut)
      (parseHHMM heure_fin - parseHHMM heure_debut) pause (parseHHMM heure_debut)
      (sortRule regle
        (groupOf (brut.filter (fun p => decide (p.statut = "Planifié"))) c)))

/-- `appliquer_ordonnancement_horaire` (lines 16-134 of `app1.py`):
split the input into `Planifié` and the rest, group the former by
(room, day), sort each group by the dispatching rule, place greedily,
then append the non-allocated patients with `N/A` times. -/
def appliquer_ordonnancement_horaire (brut : List PatientRec)
    (heure_debut heure_fin : String) (pause : Int) (regle : String) : List PatientRec :=
  sequencedPart brut heure_debut heure_fin pause regle
    ++ (brut.filter (fun p => !decide (p.statut = "Planifié"))).map markNA

/-- The `Scheduled` slots which the sequencer's output holds for the
(room, day) group `k`, in output order. -/
def groupSlots (brut : List PatientRec) (heure_debut heure_fin : String)
    (pause : Int) (regle : String) (k : String × Option Int) : List PatientRec :=
  (appliquer_ordonnancement_horaire brut heure_debut heure_fin pause regle).filter
    (fun r => decide (cleDe r = k) && decide (r.statut = "Planifié"))

/-- The fields of a record that the sequencer never rewrites: patient
id, duration, priority, room, day and surgeon set. -/
def coreFields (p : PatientRec) : String × Int × Int × String × Option Int × String :=
  (p.patient_id, p.patient_duree, p.priorite, p.salle_id, p.jour_numero, p.chirurgiens)

/-! ### The allocation optimizer (lines 536-646 of `app1.py`) -/

/-- A registry patient (`st.session_state.patients`). -/
structure Patient where
  id : String
  nom : String
  prenom : String
  duree : Int
  priorite : Int
  deriving DecidableEq

/-- A registry room (`st.session_state.salles`). -/
structure Salle where
  id : String
  nom : String
  capacite : Int
  deriving DecidableEq

/-- A registry surgeon (`st.session_state.chirurgiens`). -/
structure Chirurgien where
  id : String
  disponibilite : Int
  deriving DecidableEq

/-- A planning day (`st.session_state.jours`). -/
structure Jour where
  numero : Int
  date : String
  deriving DecidableEq

/-- The dense dict `m` built at lines 554-559: one entry per registry
(patient, surgeon) pair, valued
`st.session_state.compatibilite.get(cle, 1)`.  The sparse session map
is embedded as a partial function `compatibilite`. -/
def mEntries (patients : List Patient) (chirurgiens : List Chirurgien)
    (compatibilite : String × String → Option Int) : List ((String × String) × Int) :=
  patients.flatMap (fun p => chirurgiens.map
    (fun c => ((p.id, c.id), (compatibilite (p.id, c.id)).getD 1)))

/-- First-match association-list lookup.  A Python dict holds each key
once; `mEntries` can repeat a key only with an identical value, so
first-match lookup agrees with the dict. -/
def dictFind : List ((String × String) × Int) → String × String → Option Int
  | [], _ => none
  | e :: d, k => if e.1 = k then some e.2 else dictFind d k

/-- `m.get((i, s), 0)`: the right-hand side of the constraint
`y[i][j][s][k] <= m.get((i, s), 0)` at line 591. -/
def compatBound (patients : List Patient) (chirurgiens : List Chirurgien)
    (compatibilite : String × String → Option Int) (i s : String) : Int :=
  (dictFind (mEntries patients chirurgiens compatibilite) (i, s)).getD 0

/-- The `(j, k)` pairs with `value(x[i][j][k]) > 0.5`, scanned rooms
outside, days inside (lines 609-611). -/
def hitPairs (salles : List Salle) (jours : List Jour)
    (valX : String → String → Int → ℚ) (i : String) : List (Salle × Jour) :=
  salles.flatMap (fun sal =>
    (jours.filter (fun d => decide ((1:ℚ)/2 < valX i sal.id d.numero))).map (fun d => (sal, d)))

/-- `[s for s in S if value(y[i][j][s][k]) > 0.5]` (line 613). -/
def surgeonsFor (S : List String) (valY : String → String → String → Int → ℚ)
    (i j : String) (k : Int) : List String :=
  S.filter (fun s => decide ((1:ℚ)/2 < valY i j s k))

/-- The record appended for a hit `(j, k)` (lines 620-631). -/
def hitRec (p : Patient) (S : List String)
    (valY : String → String → String → Int → ℚ) (jk : Salle × Jour) : PatientRec :=
  { patient_id := p.id, patient_nom := p.nom ++ " " ++ p.prenom,
    patient_duree := p.duree, priorite := p.priorite,
    salle_id := jk.1.id, salle_nom := jk.1.nom,
    jour_numero := some jk.2.numero, jour_date := jk.2.date,
    chirurgiens := ", ".intercalate (surgeonsFor S valY p.id jk.1.id jk.2.numero),
    statut := "Planifié", heure_debut := "", heure_fin := "",
    heure_debut_min := 0, heure_fin_min := 0 }

/-- The record appended when no `(j, k)` hit exists (lines 633-646):
empty room, day and surgeon fields, statut `Non planifié`. -/
def unallocRec (p : Patient) : PatientRec :=
  { patient_id := p.id, patient_nom := p.nom ++ " " ++ p.prenom,
    patient_duree := p.duree, priorite := p.priorite,
    salle_id := "", salle_nom := "", jour_numero := none, jour_date := "",
    chirurgiens := "", statut := "Non planifié", heure_debut := "", heure_fin := "",
    heure_debut_min := 0, heure_fin_min := 0 }

/-- The records the decoder emits for one patient: one per hit, plus
the `Non planifié` record when there is no hit (`scheduled` stays
false). -/
def decodePatient (p : Patient) (salles : List Salle) (jours : List Jour) (S : List String)
    (valX : String → String → Int → ℚ)
    (valY : String → String → String → Int → ℚ) : List PatientRec :=
  (hitPairs salles jours valX p.id).map (hitRec p S valY) ++
    (if ((hitPairs salles jours valX p.id).map (hitRec p S valY)).isEmpty then
      [unallocRec p] else [])

/-- `planning_details` (lines 605-646): decode every patient in registry
order. -/
def planning_details (patients : List Patient) (salles : List Salle) (jours : List Jour)
    (S : List String) (valX : String → String → Int → ℚ)
    (valY : String → String → String → Int → ℚ) : List PatientRec :=
  patients.flatMap (fun p => decodePatient p salles jours S valX valY)

/-- A concrete solver valuation (every `x` equals 1), an instantiation
fixture. -/
def oneX : String → String → Int → ℚ := fun _ _ _ => 1

/-- A concrete solver valuation (every `y` equals 1), an instantiation
fixture. -/
def oneY : String → String → String → Int → ℚ := fun _ _ _ _ => 1

/-- A concrete solver valuation (every `x` equals 0), an instantiation
fixture. -/
def zeroX : String → String → Int → ℚ := fun _ _ _ => 0

/-- A concrete solver valuation (every `y` equals 0), an instantiation
fixture. -/
def zeroY : String → String → String → Int → ℚ := fun _ _ _ _ => 0

end Clinique

namespace Clinique

/-! ### Permutation facts about the stable sort -/

theorem insort_perm {α : Type} (le : α → α → Bool) (a : α) :
    ∀ l : List α, (insort le a l).Perm (a :: l)
  | [] => List.Perm.refl _
  | b :: l => by
    unfold insort
    split
    · exact List.Perm.refl _
    · exact ((insort_perm le a l).cons b).trans (List.Perm.swap a b l)

theorem stableSort_perm {α : Type} (le : α → α → Bool) :
    ∀ l : List α, (stableSort le l).Perm l
  | [] => List.Perm.refl _
  | a :: l => ((insort_perm le a (stableSort le l)).trans
      ((stableSort_perm le l).cons a))

theorem sortRule_perm (regle : String) (l : List PatientRec) :
    (sortRule regle l).Perm l := by
  unfold sortRule
  split
  · exact stableSort_perm _ l
  split
  · exact stableSort_perm _ l
  split
  · exact stableSort_perm _ l
  split
  · exact stableSort_perm _ l
  · exact stableSort_perm _ l

/-! ### Parsing and formatting lemmas -/

theorem splitOnColon_of_no_colon :
    ∀ (cs acc : List Char), (∀ c ∈ cs, ¬ c = ':') →
      splitOnColon cs acc = [acc.reverse ++ cs]
  | [], acc, _ => by simp [splitOnColon]
  | c :: cs, acc, h => by
    have hc : ¬ c = ':' := h c (by simp)
    rw [splitOnColon, if_neg hc,
      splitOnColon_of_no_colon cs (c :: acc) (fun d hd => h d (by simp [hd]))]
    simp

theorem splitOnColon_around :
    ∀ (cs rest acc : List Char), (∀ c ∈ cs, ¬ c = ':') →
      splitOnColon (cs ++ ':' :: rest) acc =
        (acc.reverse ++ cs) :: splitOnColon rest []
  | [], rest, acc, _ => by simp [splitOnColon]
  | c :: cs, rest, acc, h => by
    have hc : ¬ c = ':' := h c (by simp)
    rw [List.cons_append, splitOnColon, if_neg hc,
      splitOnColon_around cs rest (c :: acc) (fun d hd => h d (by simp [hd]))]
    simp

set_option maxRecDepth 4000 in
theorem pad2_parses : ∀ n : Nat, n < 60 →
    intOfDigits (pad2 (n : Int)).data = (n : Int) ∧
      ∀ c ∈ (pad2 (n : Int)).data, ¬ c = ':' := by decide

theorem parseHHMM_of_split (s : String) (h m : List Char) (rest : List (List Char))
    (hs : splitOnColon s.data [] = h :: m :: rest) :
    parseHHMM s = intOfDigits h * 60 + intOfDigits m := by
  unfold parseHHMM
  rw [hs]

/-- Claim C9: formatting integer minutes-since-midnight `m`
(`0 ≤ m < 1440`) as zero-padded "HH:MM" via `(m // 60, m % 60)` and
parsing "HH:MM" back as `HH*60 + MM` are mutually inverse; in
particular `fmtHHMM 510 = "08:30"` and `parseHHMM "08:30" = 510`. -/
theorem hhmm_roundtrip :
    (∀ m : Int, 0 ≤ m → m < 1440 → parseHHMM (fmtHHMM m) = m) ∧
    fmtHHMM 510 = "08:30" ∧ parseHHMM "08:30" = 510 := by
  refine ⟨?_, by decide, by decide⟩
  intro m h0 h1
  have hqn : (m / 60) = (((m / 60).toNat : Nat) : Int) := by omega
  have hrn : (m % 60) = (((m % 60).toNat : Nat) : Int) := by omega
  have hp1 := pad2_parses (m / 60).toNat (by omega)
  have hp2 := pad2_parses (m % 60).toNat (by omega)
  rw [← hqn] at hp1
  rw [← hrn] at hp2
  have hdata : (fmtHHMM m).data =
      (pad2 (m / 60)).data ++ ':' :: (pad2 (m % 60)).data := by
    unfold fmtHHMM
    rw [String.data_append, String.data_append]
    simp
  rw [parseHHMM_of_split (fmtHHMM m) (pad2 (m / 60)).data (pad2 (m % 60)).data []
      (by rw [hdata, splitOnColon_around _ _ _ hp1.2,
              splitOnColon_of_no_colon _ _ hp2.2]
          simp),
    hp1.1, hp2.1]
  omega

theorem hhmm_roundtrip_witness :
    (0 : Int) ≤ 510 ∧ (510 : Int) < 1440 ∧ parseHHMM (fmtHHMM 510) = 510 :=
  ⟨by decide, by decide, hhmm_roundtrip.1 510 (by decide) (by decide)⟩

/-- Claim C7: for patients A(180, prio 2), B(60, prio 1), C(120, prio 3)
in one (room, day), window 08:00-18:00, pause 15, the rule `duree_desc`
yields A 08:00-11:00, C 11:15-13:15, B 13:30-14:30; `priorite` yields
B 08:00-09:00, A 09:15-12:15, C 12:30-14:30; `fifo` orders by ascending
patient id. -/
theorem dispatch_rule_scenario :
    (appliquer_ordonnancement_horaire
        [mkBrut "B" 60 1 "S1" (some 1) "C1" "Planifié",
         mkBrut "C" 120 3 "S1" (some 1) "C1" "Planifié",
         mkBrut "A" 180 2 "S1" (some 1) "C1" "Planifié"]
        "08:00" "18:00" 15 "duree_desc").map
        (fun r => (r.patient_id, r.heure_debut, r.heure_fin)) =
      [("A", "08:00", "11:00"), ("C", "11:15", "13:15"), ("B", "13:30", "14:30")] ∧
    (appliquer_ordonnancement_horaire
        [mkBrut "B" 60 1 "S1" (some 1) "C1" "Planifié",
         mkBrut "C" 120 3 "S1" (some 1) "C1" "Planifié",
         mkBrut "A" 180 2 "S1" (some 1) "C1" "Planifié"]
        "08:00" "18:00" 15 "priorite").map
        (fun r => (r.patient_id, r.heure_debut, r.heure_fin)) =
      [("B", "08:00", "09:00"), ("A", "09:15", "12:15"), ("C", "12:30", "14:30")] ∧
    (appliquer_ordonnancement_horaire
        [mkBrut "B" 60 1 "S1" (some 1) "C1" "Planifié",
         mkBrut "C" 120 3 "S1" (some 1) "C1" "Planifié",
         mkBrut "A" 180 2 "S1" (some 1) "C1" "Planifié"]
        "08:00" "18:00" 15 "fifo").map (fun r => r.patient_id) =
      ["A", "B", "C"] :=
  ⟨by decide, by decide, by decide⟩

/-- Claim C2, counterexample: with the unknown dispatching rule
`"bogus"` the sequencer does not fail — it produces a timetable, and
the patient receives start/end times. -/
theorem unknown_rule_schedules_anyway :
    (appliquer_ordonnancement_horaire [mkBrut "A" 60 2 "S1" (some 1) "C1" "Planifié"]
        "08:00" "18:00" 15 "bogus").map
        (fun r => (r.patient_id, r.statut, r.heure_debut, r.heure_fin)) =
      [("A", "Planifié", "08:00", "09:00")] := by decide

/-- Claim C2, amended: a dispatching rule other than `duree_desc`,
`priorite`, `fifo` and `mixte` does not raise; the sequencer silently
falls back to the default `duree_desc` (LPT) ordering and produces the
same timetable as that rule. -/
theorem unknown_rule_defaults (brut : List PatientRec) (hd hf : String)
    (pause : Int) (regle : String)
    (h1 : ¬ regle = "duree_desc") (h2 : ¬ regle = "priorite")
    (h3 : ¬ regle = "fifo") (h4 : ¬ regle = "mixte") :
    appliquer_ordonnancement_horaire brut hd hf pause regle =
      appliquer_ordonnancement_horaire brut hd hf pause "duree_desc" := by
  have hs : ∀ l, sortRule regle l = sortRule "duree_desc" l := by
    intro l
    unfold sortRule
    rw [if_neg h1, if_neg h2, if_neg h3, if_neg h4, if_pos rfl]
  unfold appliquer_ordonnancement_horaire sequencedPart
  simp only [hs]

theorem unknown_rule_defaults_witness :
    (¬ "bogus" = "duree_desc") ∧ (¬ "bogus" = "priorite") ∧
    (¬ "bogus" = "fifo") ∧ (¬ "bogus" = "mixte") ∧
    appliquer_ordonnancement_horaire
        [mkBrut "A" 60 2 "S1" (some 1) "C1" "Planifié"] "08:00" "18:00" 15 "bogus" =
      appliquer_ordonnancement_horaire
        [mkBrut "A" 60 2 "S1" (some 1) "C1" "Planifié"] "08:00" "18:00" 15 "duree_desc" :=
  ⟨by decide, by decide, by decide, by decide,
    unknown_rule_defaults _ _ _ _ _ (by decide) (by decide) (by decide) (by decide)⟩

/-- Claim C4: a patient that does not fit is marked overflow with `N/A`
start/end and the cursor is left unchanged; processing continues down
the list against that same cursor, so a later patient that fits at the
frozen cursor is still placed. -/
theorem overflow_keeps_cursor (hDebut capacite pause cur : Int) (p : PatientRec)
    (hover : hDebut + capacite < cur + p.patient_duree) :
    (∀ rest, placeGroup hDebut capacite pause cur (p :: rest) =
        overflowRec p :: placeGroup hDebut capacite pause cur rest) ∧
    (∀ q rest, cur + q.patient_duree ≤ hDebut + capacite →
        placeGroup hDebut capacite pause cur (p :: q :: rest) =
          overflowRec p :: schedRec q cur
            :: placeGroup hDebut capacite pause (cur + q.patient_duree + pause) rest) := by
  constructor
  · intro rest
    rw [placeGroup, if_neg (by omega)]
  · intro q rest hfit
    rw [placeGroup, if_neg (by omega), placeGroup, if_pos hfit]

theorem overflow_keeps_cursor_witness :
    ((480 : Int) + 600 < 480 + (mkBrut "X" 700 1 "S1" (some 1) "" "Planifié").patient_duree) ∧
    placeGroup 480 600 15 480
        [mkBrut "X" 700 1 "S1" (some 1) "" "Planifié",
         mkBrut "Y" 60 1 "S1" (some 1) "" "Planifié"] =
      overflowRec (mkBrut "X" 700 1 "S1" (some 1) "" "Planifié")
        :: schedRec (mkBrut "Y" 60 1 "S1" (some 1) "" "Planifié") 480
        :: placeGroup 480 600 15
            (480 + (mkBrut "Y" 60 1 "S1" (some 1) "" "Planifié").patient_duree + 15) [] :=
  ⟨by decide,
    (overflow_keeps_cursor 480 600 15 480 _ (by decide)).2 _ [] (by decide)⟩

/-- Claim C8: a patient is placed iff `cursor + duration ≤ window end`
(`h_debut + capacite = h_fin`); the pause is added to the cursor only
after a successful placement, never required after the last patient.
In particular a single patient whose duration equals the whole window
is placed and ends exactly at the window end. -/
theorem pause_only_before_next (hDebut hFin pause cur : Int) (p : PatientRec) :
    (∀ rest, placeGroup hDebut (hFin - hDebut) pause cur (p :: rest) =
        if cur + p.patient_duree ≤ hFin then
          schedRec p cur
            :: placeGroup hDebut (hFin - hDebut) pause (cur + p.patient_duree + pause) rest
        else overflowRec p :: placeGroup hDebut (hFin - hDebut) pause cur rest) ∧
    (hDebut ≤ hFin → p.patient_duree = hFin - hDebut →
        placeGroup hDebut (hFin - hDebut) pause hDebut [p] =
          [{ p with heure_debut := fmtHHMM hDebut, heure_fin := fmtHHMM hFin,
                    heure_debut_min := hDebut, heure_fin_min := hFin }]) := by
  have hcap : hDebut + (hFin - hDebut) = hFin := by omega
  constructor
  · intro rest
    rw [placeGroup, hcap]
  · intro hle hdur
    rw [placeGroup, if_pos (by omega)]
    unfold schedRec
    rw [show hDebut + p.patient_duree = hFin by omega, placeGroup]

theorem pause_only_before_next_witness :
    ((480 : Int) ≤ 1080) ∧
    (mkBrut "Z" 600 1 "S1" (some 1) "" "Planifié").patient_duree = (1080 : Int) - 480 ∧
    placeGroup 480 (1080 - 480) 15 480 [mkBrut "Z" 600 1 "S1" (some 1) "" "Planifié"] =
      [{ mkBrut "Z" 600 1 "S1" (some 1) "" "Planifié" with
          heure_debut := fmtHHMM 480, heure_fin := fmtHHMM 1080,
          heure_debut_min := 480, heure_fin_min := 1080 }] :=
  ⟨by decide, by decide,
    (pause_only_before_next 480 1080 15 480 _).2 (by decide) (by decide)⟩

end Clinique

namespace Clinique

/-! ### Group keys and the placement invariant -/

theorem insertKey_nodup (ks : List (String × Option Int)) (k : String × Option Int)
    (h : ks.Nodup) : (insertKey ks k).Nodup := by
  unfold insertKey
  split
  · exact h
  · exact h.append (List.nodup_singleton k) (List.disjoint_singleton.mpr (by assumption))

theorem keysOf_loop_nodup :
    ∀ (l : List PatientRec) (acc : List (String × Option Int)), acc.Nodup →
      (l.foldl (fun ks p => insertKey ks (cleDe p)) acc).Nodup
  | [], _, h => h
  | p :: l, acc, h => keysOf_loop_nodup l (insertKey acc (cleDe p)) (insertKey_nodup acc _ h)

theorem keysOf_nodup (l : List PatientRec) : (keysOf l).Nodup :=
  keysOf_loop_nodup l [] List.nodup_nil

theorem flatMap_single {β : Type} :
    ∀ (ks : List (String × Option Int)) (g : (String × Option Int) → List β)
      (k : String × Option Int),
      (∀ c ∈ ks, ¬ c = k → g c = []) → ks.Nodup →
      ks.flatMap g = if k ∈ ks then g k else []
  | [], g, k, _, _ => by simp
  | c :: ks, g, k, hnil, hnd => by
    obtain ⟨hcn, hknd⟩ := List.nodup_cons.mp hnd
    by_cases hck : c = k
    · subst hck
      have hrest : ks.flatMap g = [] := by
        rw [List.flatMap_eq_nil_iff]
        intro x hx
        exact hnil x (by simp [hx]) (fun he => hcn (he ▸ hx))
      simp [hrest]
    · have hc : g c = [] := hnil c (by simp) hck
      rw [List.flatMap_cons, hc, List.nil_append,
        flatMap_single ks g k (fun d hd => hnil d (by simp [hd])) hknd]
      by_cases hk : k ∈ ks
      · rw [if_pos hk, if_pos (by simp [hk])]
      · rw [if_neg hk, if_neg (by
          simp only [List.mem_cons]
          rintro (h | h)
          · exact hck h.symm
          · exact hk h)]

theorem placeGroup_cle (hDebut capacite pause : Int) (k : String × Option Int) :
    ∀ (ps : List PatientRec) (cur : Int), (∀ p ∈ ps, cleDe p = k) →
      ∀ r ∈ placeGroup hDebut capacite pause cur ps, cleDe r = k
  | [], _, _, r, hr => by simp [placeGroup] at hr
  | p :: ps, cur, h, r, hr => by
    rw [placeGroup] at hr
    split at hr
    · rcases List.mem_cons.mp hr with hr | hr
      · subst hr; exact h p (by simp)
      · exact placeGroup_cle hDebut capacite pause k ps _
          (fun q hq => h q (by simp [hq])) r hr
    · rcases List.mem_cons.mp hr with hr | hr
      · subst hr; exact h p (by simp)
      · exact placeGroup_cle hDebut capacite pause k ps _
          (fun q hq => h q (by simp [hq])) r hr

theorem placeGroup_sched_invariant (hDebut capacite pause : Int) (hp : 0 ≤ pause) :
    ∀ (ps : List PatientRec) (cur : Int),
      (∀ p ∈ ps, 0 ≤ p.patient_duree ∧ p.statut = "Planifié") →
      (∀ r ∈ (placeGroup hDebut capacite pause cur ps).filter
            (fun r => decide (r.statut = "Planifié")),
          cur ≤ r.heure_debut_min ∧
            r.heure_fin_min = r.heure_debut_min + r.patient_duree ∧
            0 ≤ r.patient_duree) ∧
      ((placeGroup hDebut capacite pause cur ps).filter
          (fun r => decide (r.statut = "Planifié"))).Pairwise
        (fun a b => a.heure_fin_min ≤ b.heure_debut_min) ∧
      List.Chain' (fun a b => a.heure_fin_min + pause ≤ b.heure_debut_min)
        ((placeGroup hDebut capacite pause cur ps).filter
          (fun r => decide (r.statut = "Planifié"))) := by
  intro ps
  induction ps with
  | nil =>
    intro cur _
    simp [placeGroup]
  | cons p ps ih =>
    intro cur h
    have hps : ∀ q ∈ ps, 0 ≤ q.patient_duree ∧ q.statut = "Planifié" :=
      fun q hq => h q (by simp [hq])
    have hpd : 0 ≤ p.patient_duree := (h p (by simp)).1
    have hpst : p.statut = "Planifié" := (h p (by simp)).2
    rw [placeGroup]
    by_cases hfit : cur + p.patient_duree ≤ hDebut + capacite
    · rw [if_pos hfit]
      rw [List.filter_cons,
        if_pos (show (decide ((schedRec p cur).statut = "Planifié")) = true by
          simp [schedRec, hpst])]
      obtain ⟨ih1, ih2, ih3⟩ := ih (cur + p.patient_duree + pause) hps
      refine ⟨?_, ?_, ?_⟩
      · intro r hr
        rcases List.mem_cons.mp hr with hr | hr
        · subst hr
          exact ⟨le_refl _, rfl, hpd⟩
        · obtain ⟨h1, h2, h3⟩ := ih1 r hr
          exact ⟨by omega, h2, h3⟩
      · rw [List.pairwise_cons]
        refine ⟨?_, ih2⟩
        intro r hr
        have h1 := (ih1 r hr).1
        show cur + p.patient_duree ≤ r.heure_debut_min
        omega
      · rw [List.chain'_cons']
        refine ⟨?_, ih3⟩
        intro b hb
        have h1 := (ih1 b (List.mem_of_mem_head? hb)).1
        show cur + p.patient_duree + pause ≤ b.heure_debut_min
        omega
    · rw [if_neg hfit]
      rw [List.filter_cons,
        if_neg (show ¬ (decide ((overflowRec p).statut = "Planifié")) = true by
          simp [overflowRec])]
      exact ih cur hps

theorem groupSlots_cases (brut : List PatientRec) (hd hf : String) (pause : Int)
    (regle : String) (k : String × Option Int) :
    groupSlots brut hd hf pause regle k = [] ∨
    groupSlots brut hd hf pause regle k =
      (placeGroup (parseHHMM hd) (parseHHMM hf - parseHHMM hd) pause (parseHHMM hd)
        (sortRule regle
          (groupOf (brut.filter (fun p => decide (p.statut = "Planifié"))) k))).filter
        (fun r => decide (r.statut = "Planifié")) := by
  have hna : ((brut.filter (fun p => !decide (p.statut = "Planifié"))).map markNA).filter
      (fun r => decide (cleDe r = k) && decide (r.statut = "Planifié")) = [] := by
    rw [List.filter_eq_nil_iff]
    intro a ha
    rcases List.mem_map.mp ha with ⟨p, hp1, rfl⟩
    have hst := (List.mem_filter.mp hp1).2
    simp only [Bool.and_eq_true, decide_eq_true_eq, not_and]
    intro _
    show ¬ p.statut = "Planifié"
    simpa using hst
  have hgrp : ∀ c, ∀ r ∈ placeGroup (parseHHMM hd) (parseHHMM hf - parseHHMM hd) pause
      (parseHHMM hd)
      (sortRule regle (groupOf (brut.filter (fun p => decide (p.statut = "Planifié"))) c)),
      cleDe r = c := by
    intro c r hr
    refine placeGroup_cle _ _ pause c _ _ ?_ r hr
    intro q hq
    have hq' : q ∈ groupOf (brut.filter (fun p => decide (p.statut = "Planifié"))) c :=
      (sortRule_perm regle _).mem_iff.mp hq
    exact of_decide_eq_true (List.mem_filter.mp hq').2
  have hnl : ∀ c ∈ keysOf (brut.filter (fun p => decide (p.statut = "Planifié"))), ¬ c = k →
      (placeGroup (parseHHMM hd) (parseHHMM hf - parseHHMM hd) pause (parseHHMM hd)
        (sortRule regle
          (groupOf (brut.filter (fun p => decide (p.statut = "Planifié"))) c))).filter
        (fun r => decide (cleDe r = k) && decide (r.statut = "Planifié")) = [] := by
    intro c _ hck
    rw [List.filter_eq_nil_iff]
    intro r hr
    have hc := hgrp c r hr
    simp [hc, hck]
  unfold groupSlots appliquer_ordonnancement_horaire sequencedPart
  rw [List.filter_append, hna, List.append_nil, List.filter_flatMap,
    flatMap_single _ _ k hnl
      (keysOf_nodup (brut.filter (fun p => decide (p.statut = "Planifié"))))]
  by_cases hk : k ∈ keysOf (brut.filter (fun p => decide (p.statut = "Planifié")))
  · right
    rw [if_pos hk]
    apply List.filter_congr
    intro r hr
    have hc := hgrp k r hr
    simp [hc]
  · left
    rw [if_neg hk]

end Clinique

namespace Clinique

/-- Claim C1: for every input allocation list, window, pause `≥ 0` and
dispatching rule, within each (room, day) group of the sequencer's
output the placed slots are pairwise non-overlapping (every earlier
slot ends no later than a later slot starts) and any two consecutively
placed slots satisfy `next.start_min ≥ previous.end_min + pause`.
Durations of allocation records are nonnegative, as the registry
produces them. -/
theorem slots_non_overlapping (brut : List PatientRec) (hd hf : String)
    (pause : Int) (regle : String) (k : String × Option Int)
    (hp : 0 ≤ pause) (hdur : ∀ p ∈ brut, 0 ≤ p.patient_duree) :
    (groupSlots brut hd hf pause regle k).Pairwise
      (fun a b => a.heure_fin_min ≤ b.heure_debut_min) ∧
    List.Chain' (fun a b => a.heure_fin_min + pause ≤ b.heure_debut_min)
      (groupSlots brut hd hf pause regle k) := by
  rcases groupSlots_cases brut hd hf pause regle k with hnil | heq
  · rw [hnil]
    exact ⟨List.Pairwise.nil, List.chain'_nil⟩
  · rw [heq]
    have hmem : ∀ q ∈ sortRule regle
        (groupOf (brut.filter (fun p => decide (p.statut = "Planifié"))) k),
        0 ≤ q.patient_duree ∧ q.statut = "Planifié" := by
      intro q hq
      have hq' := (sortRule_perm regle _).mem_iff.mp hq
      have hq2 := List.mem_filter.mp hq'
      have hq3 := List.mem_filter.mp hq2.1
      exact ⟨hdur q hq3.1, of_decide_eq_true hq3.2⟩
    obtain ⟨_, h2, h3⟩ := placeGroup_sched_invariant (parseHHMM hd)
      (parseHHMM hf - parseHHMM hd) pause hp _ (parseHHMM hd) hmem
    exact ⟨h2, h3⟩

theorem slots_non_overlapping_witness :
    ((0 : Int) ≤ 15) ∧
    (∀ p ∈ [mkBrut "B" 60 1 "S1" (some 1) "C1" "Planifié",
            mkBrut "A" 180 2 "S1" (some 1) "C1" "Planifié"], 0 ≤ p.patient_duree) ∧
    ((groupSlots [mkBrut "B" 60 1 "S1" (some 1) "C1" "Planifié",
                  mkBrut "A" 180 2 "S1" (some 1) "C1" "Planifié"]
          "08:00" "18:00" 15 "duree_desc" ("S1", some 1)).Pairwise
        (fun a b => a.heure_fin_min ≤ b.heure_debut_min) ∧
      List.Chain' (fun a b => a.heure_fin_min + 15 ≤ b.heure_debut_min)
        (groupSlots [mkBrut "B" 60 1 "S1" (some 1) "C1" "Planifié",
                     mkBrut "A" 180 2 "S1" (some 1) "C1" "Planifié"]
          "08:00" "18:00" 15 "duree_desc" ("S1", some 1))) :=
  ⟨by decide, by decide,
    slots_non_overlapping _ "08:00" "18:00" 15 "duree_desc" ("S1", some 1)
      (by decide) (by decide)⟩

/-! ### The sequencer output is a permutation of its input -/

theorem insertKey_mem (ks : List (String × Option Int)) (k a : String × Option Int)
    (h : a ∈ ks ∨ a = k) : a ∈ insertKey ks k := by
  unfold insertKey
  split
  · rcases h with h | h
    · exact h
    · subst h; assumption
  · rcases h with h | h
    · exact List.mem_append_left _ h
    · subst h; exact List.mem_append_right _ (by simp)

theorem keysOf_loop_mono :
    ∀ (l : List PatientRec) (acc : List (String × Option Int)) (a : String × Option Int),
      a ∈ acc → a ∈ l.foldl (fun ks p => insertKey ks (cleDe p)) acc
  | [], _, _, h => h
  | p :: l, acc, a, h =>
    keysOf_loop_mono l (insertKey acc (cleDe p)) a (insertKey_mem acc (cleDe p) a (Or.inl h))

theorem keysOf_complete_loop :
    ∀ (l : List PatientRec) (acc : List (String × Option Int)) (p : PatientRec), p ∈ l →
      cleDe p ∈ l.foldl (fun ks q => insertKey ks (cleDe q)) acc
  | [], _, _, h => absurd h (by simp)
  | q :: l, acc, p, h => by
    rcases List.mem_cons.mp h with h | h
    · subst h
      exact keysOf_loop_mono l _ _ (insertKey_mem acc (cleDe p) (cleDe p) (Or.inr rfl))
    · exact keysOf_complete_loop l _ p h

theorem keysOf_complete (l : List PatientRec) (p : PatientRec) (h : p ∈ l) :
    cleDe p ∈ keysOf l :=
  keysOf_complete_loop l [] p h

theorem groups_join_perm :
    ∀ (ks : List (String × Option Int)) (l : List PatientRec), ks.Nodup →
      (∀ p ∈ l, cleDe p ∈ ks) → (ks.flatMap (fun c => groupOf l c)).Perm l
  | [], l, _, h => by
    cases l with
    | nil => simp
    | cons p l => exact absurd (h p (by simp)) (by simp)
  | k :: ks, l, hnd, h => by
    obtain ⟨hkn, hknd⟩ := List.nodup_cons.mp hnd
    rw [List.flatMap_cons]
    have hstep : ks.flatMap (fun c => groupOf l c) =
        ks.flatMap (fun c => groupOf (l.filter (fun p => !decide (cleDe p = k))) c) := by
      apply List.flatMap_congr
      intro c hc
      unfold groupOf
      rw [List.filter_filter]
      apply List.filter_congr
      intro p _
      by_cases hpc : cleDe p = c
      · have hck : ¬ c = k := fun hck => hkn (hck ▸ hc)
        have hpk : ¬ cleDe p = k := fun h' => hck ((hpc ▸ h' : c = k))
        simp [hpc, hpk, hck]
      · simp [hpc]
    rw [hstep]
    have hmem : ∀ p ∈ l.filter (fun p => !decide (cleDe p = k)), cleDe p ∈ ks := by
      intro p hp
      have hp2 := List.mem_filter.mp hp
      have hp4 : ¬ cleDe p = k := by simpa using hp2.2
      rcases List.mem_cons.mp (h p hp2.1) with h5 | h5
      · exact absurd h5 hp4
      · exact h5
    have hrec := groups_join_perm ks (l.filter (fun p => !decide (cleDe p = k))) hknd hmem
    exact (List.Perm.append_left (groupOf l k) hrec).trans
      (List.filter_append_perm (fun p => decide (cleDe p = k)) l)

theorem placeGroup_map_core (hDebut capacite pause : Int) :
    ∀ (cur : Int) (ps : List PatientRec),
      (placeGroup hDebut capacite pause cur ps).map coreFields = ps.map coreFields
  | _, [] => rfl
  | cur, p :: ps => by
    rw [placeGroup]
    split
    · rw [List.map_cons, List.map_cons,
        placeGroup_map_core hDebut capacite pause (cur + p.patient_duree + pause) ps]
      rfl
    · rw [List.map_cons, List.map_cons,
        placeGroup_map_core hDebut capacite pause cur ps]
      rfl

theorem flatMap_perm_congr {β : Type} :
    ∀ (ks : List (String × Option Int)) (f g : String × Option Int → List β),
      (∀ c ∈ ks, (f c).Perm (g c)) → (ks.flatMap f).Perm (ks.flatMap g)
  | [], _, _, _ => by simp
  | c :: ks, f, g, h => by
    rw [List.flatMap_cons, List.flatMap_cons]
    exact (h c (by simp)).append
      (flatMap_perm_congr ks f g (fun d hd => h d (by simp [hd])))

/-- Claim C10: the sequencer's output is a permutation of its input —
every record appears exactly once, with patient id, duration, priority,
room, day and surgeon fields unchanged (`coreFields`); the processed
`Planifié` records come first, and the pass-through non-allocated
records are appended last in their input order. -/
theorem sequencer_is_permutation (brut : List PatientRec) (hd hf : String)
    (pause : Int) (regle : String) :
    ((appliquer_ordonnancement_horaire brut hd hf pause regle).map coreFields).Perm
      (brut.map coreFields) ∧
    appliquer_ordonnancement_horaire brut hd hf pause regle =
      sequencedPart brut hd hf pause regle ++
        (brut.filter (fun p => !decide (p.statut = "Planifié"))).map markNA ∧
    ((sequencedPart brut hd hf pause regle).map coreFields).Perm
      ((brut.filter (fun p => decide (p.statut = "Planifié"))).map coreFields) := by
  have hseq : ((sequencedPart brut hd hf pause regle).map coreFields).Perm
      ((brut.filter (fun p => decide (p.statut = "Planifié"))).map coreFields) := by
    unfold sequencedPart
    rw [List.map_flatMap]
    have h1 : (keysOf (brut.filter (fun p => decide (p.statut = "Planifié")))).flatMap
        (fun c => (placeGroup (parseHHMM hd) (parseHHMM hf - parseHHMM hd) pause
          (parseHHMM hd)
          (sortRule regle
            (groupOf (brut.filter (fun p => decide (p.statut = "Planifié"))) c))).map
          coreFields) =
        (keysOf (brut.filter (fun p => decide (p.statut = "Planifié")))).flatMap
        (fun c => (sortRule regle
            (groupOf (brut.filter (fun p => decide (p.statut = "Planifié"))) c)).map
          coreFields) :=
      List.flatMap_congr (fun c _ => placeGroup_map_core _ _ pause _ _)
    rw [h1]
    have h2 := flatMap_perm_congr
      (keysOf (brut.filter (fun p => decide (p.statut = "Planifié"))))
      (fun c => (sortRule regle
          (groupOf (brut.filter (fun p => decide (p.statut = "Planifié"))) c)).map
        coreFields)
      (fun c => (groupOf (brut.filter (fun p => decide (p.statut = "Planifié"))) c).map
        coreFields)
      (fun c _ => (sortRule_perm regle _).map coreFields)
    refine h2.trans ?_
    rw [← List.map_flatMap]
    exact (groups_join_perm _ _
      (keysOf_nodup (brut.filter (fun p => decide (p.statut = "Planifié"))))
      (fun p hp => keysOf_complete _ p hp)).map coreFields
  refine ⟨?_, rfl, hseq⟩
  unfold appliquer_ordonnancement_horaire
  rw [List.map_append, List.map_map]
  have hna : (coreFields ∘ markNA) = coreFields := by
    funext p
    rfl
  rw [hna]
  have h2 := hseq.append
    (List.Perm.refl ((brut.filter (fun p => !decide (p.statut = "Planifié"))).map coreFields))
  refine h2.trans ?_
  rw [← List.map_append]
  exact (List.filter_append_perm (fun p => decide (p.statut = "Planifié")) brut).map coreFields

end Clinique

namespace Clinique

/-! ### The compatibility dictionary and the Compat bound (claim C3) -/

theorem dictFind_append_some :
    ∀ (d₁ d₂ : List ((String × String) × Int)) (k : String × String) (v : Int),
      dictFind d₁ k = some v → dictFind (d₁ ++ d₂) k = some v
  | [], _, _, _, h => absurd h (by simp [dictFind])
  | e :: d₁, d₂, k, v, h => by
    by_cases he : e.1 = k
    · rw [dictFind, if_pos he] at h
      rw [List.cons_append, dictFind, if_pos he]
      exact h
    · rw [dictFind, if_neg he] at h
      rw [List.cons_append, dictFind, if_neg he]
      exact dictFind_append_some d₁ d₂ k v h

theorem dictFind_append_none :
    ∀ (d₁ d₂ : List ((String × String) × Int)) (k : String × String),
      dictFind d₁ k = none → dictFind (d₁ ++ d₂) k = dictFind d₂ k
  | [], _, _, _ => rfl
  | e :: d₁, d₂, k, h => by
    by_cases he : e.1 = k
    · rw [dictFind, if_pos he] at h
      exact absurd h (by simp)
    · rw [dictFind, if_neg he] at h
      rw [List.cons_append, dictFind, if_neg he]
      exact dictFind_append_none d₁ d₂ k h

theorem dictFind_row :
    ∀ (C : List Chirurgien) (f : String × String → Option Int) (pid i s : String),
      dictFind (C.map (fun c => ((pid, c.id), (f (pid, c.id)).getD 1))) (i, s) =
        if pid = i ∧ ∃ c ∈ C, c.id = s then some ((f (i, s)).getD 1) else none
  | [], _, _, _, _ => by simp [dictFind]
  | c :: C, f, pid, i, s => by
    rw [List.map_cons, dictFind]
    by_cases he : ((pid, c.id) : String × String) = (i, s)
    · rw [if_pos he]
      rw [Prod.mk.injEq] at he
      rw [if_pos ⟨he.1, ⟨c, by simp, he.2⟩⟩, he.1, he.2]
    · rw [if_neg he, dictFind_row C f pid i s]
      by_cases hcond : pid = i ∧ ∃ c' ∈ C, c'.id = s
      · have hex : ∃ c' ∈ c :: C, c'.id = s := by
          rcases hcond.2 with ⟨c', hc', hcs⟩
          exact ⟨c', by simp [hc'], hcs⟩
        rw [if_pos hcond, if_pos ⟨hcond.1, hex⟩]
      · have hnc : ¬ (pid = i ∧ ∃ c' ∈ c :: C, c'.id = s) := by
          rintro ⟨h1, c', hc', hcs⟩
          rcases List.mem_cons.mp hc' with hcc | hcc
          · subst hcc
            exact he (by rw [Prod.mk.injEq]; exact ⟨h1, hcs⟩)
          · exact hcond ⟨h1, c', hcc, hcs⟩
        rw [if_neg hcond, if_neg hnc]

theorem dictFind_mEntries :
    ∀ (P : List Patient) (C : List Chirurgien) (f : String × String → Option Int)
      (i s : String), (∃ p ∈ P, p.id = i) → (∃ c ∈ C, c.id = s) →
      dictFind (mEntries P C f) (i, s) = some ((f (i, s)).getD 1)
  | [], _, _, _, _, hP, _ => absurd hP (by simp)
  | p :: P, C, f, i, s, hP, hC => by
    unfold mEntries
    rw [List.flatMap_cons]
    by_cases hpi : p.id = i
    · exact dictFind_append_some _ _ _ _ (by rw [dictFind_row, if_pos ⟨hpi, hC⟩])
    · rw [dictFind_append_none _ _ _ (by rw [dictFind_row, if_neg (fun h => hpi h.1)])]
      have hP' : ∃ q ∈ P, q.id = i := by
        rcases hP with ⟨q, hq, hqi⟩
        rcases List.mem_cons.mp hq with h | h
        · exact absurd (h ▸ hqi) hpi
        · exact ⟨q, h, hqi⟩
      have hrec := dictFind_mEntries P C f i s hP' hC
      unfold mEntries at hrec
      exact hrec

/-- Claim C3: a registry (patient, surgeon) pair with no entry in the
sparse compatibility map gets `m[(i, s)] = 1`, so the upper bound on
`y[i][j][s][k]` is `y ≤ 1` and a binary `y` is never forced to zero;
only a pair explicitly marked `0` gives the bound `y ≤ 0`, which forces
a binary `y` to `0`. -/
theorem compat_default_one (patients : List Patient) (chirurgiens : List Chirurgien)
    (compatibilite : String × String → Option Int) (p : Patient) (c : Chirurgien)
    (hp : p ∈ patients) (hc : c ∈ chirurgiens) :
    (compatibilite (p.id, c.id) = none →
      compatBound patients chirurgiens compatibilite p.id c.id = 1 ∧
      ∀ y : ℚ, y = 0 ∨ y = 1 →
        y ≤ ((compatBound patients chirurgiens compatibilite p.id c.id : Int) : ℚ)) ∧
    (compatibilite (p.id, c.id) = some 0 →
      compatBound patients chirurgiens compatibilite p.id c.id = 0 ∧
      ∀ y : ℚ, y = 0 ∨ y = 1 →
        y ≤ ((compatBound patients chirurgiens compatibilite p.id c.id : Int) : ℚ) →
        y = 0) := by
  have hfind := dictFind_mEntries patients chirurgiens compatibilite p.id c.id
    ⟨p, hp, rfl⟩ ⟨c, hc, rfl⟩
  constructor
  · intro hnone
    have hb : compatBound patients chirurgiens compatibilite p.id c.id = 1 := by
      unfold compatBound
      rw [hfind, hnone]
      rfl
    refine ⟨hb, ?_⟩
    intro y hy
    rw [hb]
    rcases hy with hy | hy <;> rw [hy] <;> norm_num
  · intro hzero
    have hb : compatBound patients chirurgiens compatibilite p.id c.id = 0 := by
      unfold compatBound
      rw [hfind, hzero]
      rfl
    refine ⟨hb, ?_⟩
    intro y hy hle
    rw [hb] at hle
    rcases hy with hy | hy
    · exact hy
    · rw [hy] at hle
      norm_num at hle

theorem compat_default_one_witness :
    ((⟨"P1", "N", "P", 60, 2⟩ : Patient) ∈ [(⟨"P1", "N", "P", 60, 2⟩ : Patient)]) ∧
    ((⟨"C1", 360⟩ : Chirurgien) ∈ [(⟨"C1", 360⟩ : Chirurgien)]) ∧
    (((fun _ => (none : Option Int)) (("P1" : String), ("C1" : String)) = none →
      compatBound [(⟨"P1", "N", "P", 60, 2⟩ : Patient)] [(⟨"C1", 360⟩ : Chirurgien)]
          (fun _ => none) "P1" "C1" = 1 ∧
      ∀ y : ℚ, y = 0 ∨ y = 1 →
        y ≤ ((compatBound [(⟨"P1", "N", "P", 60, 2⟩ : Patient)] [(⟨"C1", 360⟩ : Chirurgien)]
          (fun _ => none) "P1" "C1" : Int) : ℚ)) ∧
    ((fun _ => (none : Option Int)) (("P1" : String), ("C1" : String)) = some 0 →
      compatBound [(⟨"P1", "N", "P", 60, 2⟩ : Patient)] [(⟨"C1", 360⟩ : Chirurgien)]
          (fun _ => none) "P1" "C1" = 0 ∧
      ∀ y : ℚ, y = 0 ∨ y = 1 →
        y ≤ ((compatBound [(⟨"P1", "N", "P", 60, 2⟩ : Patient)] [(⟨"C1", 360⟩ : Chirurgien)]
          (fun _ => none) "P1" "C1" : Int) : ℚ) →
        y = 0)) :=
  ⟨by decide, by decide,
    compat_default_one [(⟨"P1", "N", "P", 60, 2⟩ : Patient)] [(⟨"C1", 360⟩ : Chirurgien)]
      (fun _ => none) ⟨"P1", "N", "P", 60, 2⟩ ⟨"C1", 360⟩ (by decide) (by decide)⟩

end Clinique

namespace Clinique

/-! ### Binary 0/1 value lists (decoder and linking constraints) -/

theorem half_not_lt_zero : ¬ ((1:ℚ)/2 < 0) := by norm_num

theorem half_lt_one : (1:ℚ)/2 < 1 := by norm_num

theorem sum01_nonneg : ∀ (l : List ℚ), (∀ v ∈ l, v = 0 ∨ v = 1) → 0 ≤ l.sum
  | [], _ => le_refl 0
  | v :: l, h => by
    rw [List.sum_cons]
    have h1 := h v (by simp)
    have h2 := sum01_nonneg l (fun w hw => h w (by simp [hw]))
    rcases h1 with h1 | h1 <;> rw [h1] <;> linarith

theorem sum01_zero : ∀ (l : List ℚ), (∀ v ∈ l, v = 0 ∨ v = 1) → l.sum = 0 →
    ∀ v ∈ l, v = 0
  | [], _, _, v, hv => absurd hv (by simp)
  | w :: l, h, hs, v, hv => by
    rw [List.sum_cons] at hs
    have hnn := sum01_nonneg l (fun u hu => h u (by simp [hu]))
    have hw0 : w = 0 := by
      rcases h w (by simp) with hw | hw
      · exact hw
      · rw [hw] at hs
        linarith
    have hl0 : l.sum = 0 := by
      rw [hw0] at hs
      linarith
    rcases List.mem_cons.mp hv with hv | hv
    · rw [hv, hw0]
    · exact sum01_zero l (fun u hu => h u (by simp [hu])) hl0 v hv

theorem sum01_filter_one : ∀ (l : List ℚ), (∀ v ∈ l, v = 0 ∨ v = 1) → l.sum = 1 →
    (l.filter (fun v => decide ((1:ℚ)/2 < v))).length = 1
  | [], _, hs => by
    rw [List.sum_nil] at hs
    norm_num at hs
  | v :: l, h, hs => by
    rw [List.sum_cons] at hs
    have hl' : ∀ w ∈ l, w = 0 ∨ w = 1 := fun w hw => h w (by simp [hw])
    rcases h v (by simp) with hv | hv
    · rw [List.filter_cons,
        if_neg (by rw [hv]; simp only [decide_eq_true_eq]; exact half_not_lt_zero)]
      exact sum01_filter_one l hl' (by rw [hv] at hs; linarith)
    · rw [List.filter_cons, if_pos (by rw [hv]; exact decide_eq_true half_lt_one)]
      have hsum0 : l.sum = 0 := by
        rw [hv] at hs
        linarith
      have hall := sum01_zero l hl' hsum0
      have hfil : l.filter (fun v => decide ((1:ℚ)/2 < v)) = [] := by
        rw [List.filter_eq_nil_iff]
        intro w hw
        rw [hall w hw]
        simp only [decide_eq_true_eq]
        exact half_not_lt_zero
      rw [List.length_cons, hfil]
      rfl

theorem length_filter_comp {α β : Type} (f : α → β) (pb : β → Bool) :
    ∀ l : List α, (l.filter (fun a => pb (f a))).length = ((l.map f).filter pb).length
  | [] => rfl
  | a :: l => by
    rw [List.map_cons, List.filter_cons, List.filter_cons]
    by_cases h : pb (f a) = true
    · rw [if_pos h, if_pos h, List.length_cons, List.length_cons,
        length_filter_comp f pb l]
    · rw [if_neg h, if_neg h, length_filter_comp f pb l]

/-! ### Decoder facts (claims C5 and C6) -/

theorem decodePatient_ids (p : Patient) (salles : List Salle) (jours : List Jour)
    (S : List String) (valX : String → String → Int → ℚ)
    (valY : String → String → String → Int → ℚ) :
    ∀ r ∈ decodePatient p salles jours S valX valY, r.patient_id = p.id := by
  intro r hr
  unfold decodePatient at hr
  rcases List.mem_append.mp hr with hr | hr
  · rcases List.mem_map.mp hr with ⟨jk, _, heq⟩
    rw [← heq]
    rfl
  · split at hr
    · rw [List.mem_singleton] at hr
      rw [hr]
      rfl
    · exact absurd hr (by simp)

theorem decodePatient_length (p : Patient) (salles : List Salle) (jours : List Jour)
    (S : List String) (valX : String → String → Int → ℚ)
    (valY : String → String → String → Int → ℚ)
    (h : (hitPairs salles jours valX p.id).length ≤ 1) :
    (decodePatient p salles jours S valX valY).length = 1 := by
  unfold decodePatient
  cases hH : hitPairs salles jours valX p.id with
  | nil => rfl
  | cons jk rest =>
    cases rest with
    | nil => rfl
    | cons jk2 rest2 =>
      exfalso
      rw [hH, List.length_cons, List.length_cons] at h
      omega

theorem mem_hitPairs (salles : List Salle) (jours : List Jour)
    (valX : String → String → Int → ℚ) (i : String) (jk : Salle × Jour)
    (h : jk ∈ hitPairs salles jours valX i) :
    jk.1 ∈ salles ∧ jk.2 ∈ jours ∧ (1:ℚ)/2 < valX i jk.1.id jk.2.numero := by
  unfold hitPairs at h
  rcases List.mem_flatMap.mp h with ⟨sal, hsal, hmem⟩
  rcases List.mem_map.mp hmem with ⟨d, hd, heq⟩
  rcases List.mem_filter.mp hd with ⟨hdj, hx⟩
  subst heq
  exact ⟨hsal, hdj, of_decide_eq_true hx⟩

theorem planning_filter_id :
    ∀ (patients : List Patient) (salles : List Salle) (jours : List Jour)
      (S : List String) (valX : String → String → Int → ℚ)
      (valY : String → String → String → Int → ℚ) (p : Patient),
      (patients.map Patient.id).Nodup → p ∈ patients →
      (planning_details patients salles jours S valX valY).filter
          (fun r => decide (r.patient_id = p.id)) =
        decodePatient p salles jours S valX valY
  | [], _, _, _, _, _, p, _, hp => absurd hp (by simp)
  | q :: rest, salles, jours, S, valX, valY, p, hnd, hp => by
    rw [List.map_cons] at hnd
    obtain ⟨hqn, hnd'⟩ := List.nodup_cons.mp hnd
    unfold planning_details
    rw [List.flatMap_cons, List.filter_append]
    rcases List.mem_cons.mp hp with hpq | hpq
    · subst hpq
      have h1 : (decodePatient p salles jours S valX valY).filter
          (fun r => decide (r.patient_id = p.id)) =
          decodePatient p salles jours S valX valY :=
        List.filter_eq_self.mpr (fun r hr =>
          decide_eq_true (decodePatient_ids p salles jours S valX valY r hr))
      have h2 : (rest.flatMap (fun q' => decodePatient q' salles jours S valX valY)).filter
          (fun r => decide (r.patient_id = p.id)) = [] := by
        rw [List.filter_eq_nil_iff]
        intro r hr
        rcases List.mem_flatMap.mp hr with ⟨q', hq', hrq⟩
        have hid := decodePatient_ids q' salles jours S valX valY r hrq
        simp only [decide_eq_true_eq]
        intro hcontr
        exact hqn (List.mem_map.mpr ⟨q', hq', hid ▸ hcontr⟩)
      rw [h1, h2, List.append_nil]
    · have hqp : ¬ q.id = p.id := by
        intro hq
        exact hqn (List.mem_map.mpr ⟨p, hpq, hq.symm⟩)
      have h1 : (decodePatient q salles jours S valX valY).filter
          (fun r => decide (r.patient_id = p.id)) = [] := by
        rw [List.filter_eq_nil_iff]
        intro r hr
        have hid := decodePatient_ids q salles jours S valX valY r hr
        simp only [decide_eq_true_eq]
        rw [hid]
        exact hqp
      rw [h1, List.nil_append]
      have hrec := planning_filter_id rest salles jours S valX valY p hnd' hpq
      unfold planning_details at hrec
      exact hrec

/-- Claim C5: when every patient has at most one (room, day) hit
(`x > 0.5`), the decoder emits exactly one record per registry patient:
the hit record (room/day of the hit, statut `Planifié`) when a hit
exists, or the `Non planifié` record with empty room, day and surgeon
fields when there is none. -/
theorem decode_unique_record (patients : List Patient) (salles : List Salle)
    (jours : List Jour) (S : List String) (valX : String → String → Int → ℚ)
    (valY : String → String → String → Int → ℚ)
    (hnd : (patients.map Patient.id).Nodup)
    (hone : ∀ p ∈ patients, (hitPairs salles jours valX p.id).length ≤ 1) :
    ∀ p ∈ patients,
      ((planning_details patients salles jours S valX valY).filter
          (fun r => decide (r.patient_id = p.id))).length = 1 ∧
      ∀ r ∈ planning_details patients salles jours S valX valY, r.patient_id = p.id →
        ((∃ jk ∈ hitPairs salles jours valX p.id, r = hitRec p S valY jk) ∨
          (hitPairs salles jours valX p.id = [] ∧ r = unallocRec p)) := by
  intro p hp
  constructor
  · rw [planning_filter_id patients salles jours S valX valY p hnd hp]
    exact decodePatient_length p salles jours S valX valY (hone p hp)
  · intro r hr hrid
    unfold planning_details at hr
    rcases List.mem_flatMap.mp hr with ⟨q, hq, hrq⟩
    have hqid : q.id = p.id :=
      (decodePatient_ids q salles jours S valX valY r hrq) ▸ hrid
    have hqp : q = p := List.inj_on_of_nodup_map hnd hq hp hqid
    subst hqp
    unfold decodePatient at hrq
    rcases List.mem_append.mp hrq with hrq | hrq
    · rcases List.mem_map.mp hrq with ⟨jk, hjk, heq⟩
      exact Or.inl ⟨jk, hjk, heq.symm⟩
    · split at hrq
      · rw [List.mem_singleton] at hrq
        rename_i hempty
        rw [List.isEmpty_iff, List.map_eq_nil_iff] at hempty
        exact Or.inr ⟨hempty, hrq⟩
      · exact absurd hrq (by simp)

theorem decode_unique_record_witness :
    ((([⟨"P1", "N", "P", 60, 2⟩] : List Patient).map Patient.id).Nodup) ∧
    (∀ p ∈ ([⟨"P1", "N", "P", 60, 2⟩] : List Patient),
      (hitPairs [⟨"S1", "Bloc", 480⟩] [⟨1, "2026-01-05"⟩] zeroX p.id).length ≤ 1) ∧
    (∀ p ∈ ([⟨"P1", "N", "P", 60, 2⟩] : List Patient),
      ((planning_details [⟨"P1", "N", "P", 60, 2⟩] [⟨"S1", "Bloc", 480⟩]
          [⟨1, "2026-01-05"⟩] ["C1"] zeroX zeroY).filter
          (fun r => decide (r.patient_id = p.id))).length = 1 ∧
      ∀ r ∈ planning_details [⟨"P1", "N", "P", 60, 2⟩] [⟨"S1", "Bloc", 480⟩]
          [⟨1, "2026-01-05"⟩] ["C1"] zeroX zeroY, r.patient_id = p.id →
        ((∃ jk ∈ hitPairs [⟨"S1", "Bloc", 480⟩] [⟨1, "2026-01-05"⟩] zeroX p.id,
            r = hitRec p ["C1"] zeroY jk) ∨
          (hitPairs [⟨"S1", "Bloc", 480⟩] [⟨1, "2026-01-05"⟩] zeroX p.id = [] ∧
            r = unallocRec p))) := by
  have h1 : (([⟨"P1", "N", "P", 60, 2⟩] : List Patient).map Patient.id).Nodup := by decide
  have h2 : ∀ p ∈ ([⟨"P1", "N", "P", 60, 2⟩] : List Patient),
      (hitPairs [⟨"S1", "Bloc", 480⟩] [⟨1, "2026-01-05"⟩] zeroX p.id).length ≤ 1 := by
    intro p _
    simp [hitPairs, zeroX, half_not_lt_zero]
  exact ⟨h1, h2, decode_unique_record _ _ _ _ _ _ h1 h2⟩

/-- Claim C6: for binary `x`, `y` satisfying the linking constraint
`Σ_s y[i,j,s,k] = x[i,j,k]`, every record decoded as `Planifié` carries
a surgeon list with exactly one member (joined with `", "` into the
`chirurgiens` field), and a patient placed in no (room, day) has all
its `y` values equal to 0 (it consumes no surgeon). -/
theorem link_single_surgeon (patients : List Patient) (salles : List Salle)
    (jours : List Jour) (S : List String) (valX : String → String → Int → ℚ)
    (valY : String → String → String → Int → ℚ)
    (hybin : ∀ i j s k, valY i j s k = 0 ∨ valY i j s k = 1)
    (hxbin : ∀ i j k, valX i j k = 0 ∨ valX i j k = 1)
    (hlink : ∀ p ∈ patients, ∀ sal ∈ salles, ∀ d ∈ jours,
      (S.map (fun s => valY p.id sal.id s d.numero)).sum = valX p.id sal.id d.numero) :
    (∀ r ∈ planning_details patients salles jours S valX valY, r.statut = "Planifié" →
      ∃ k, r.jour_numero = some k ∧
        (surgeonsFor S valY r.patient_id r.salle_id k).length = 1 ∧
        r.chirurgiens = ", ".intercalate (surgeonsFor S valY r.patient_id r.salle_id k)) ∧
    (∀ p ∈ patients, (∀ sal ∈ salles, ∀ d ∈ jours, valX p.id sal.id d.numero = 0) →
      ∀ sal ∈ salles, ∀ s ∈ S, ∀ d ∈ jours, valY p.id sal.id s d.numero = 0) := by
  constructor
  · intro r hr hst
    unfold planning_details at hr
    rcases List.mem_flatMap.mp hr with ⟨q, hq, hrq⟩
    unfold decodePatient at hrq
    rcases List.mem_append.mp hrq with hrq | hrq
    · rcases List.mem_map.mp hrq with ⟨jk, hjk, heq⟩
      subst heq
      obtain ⟨hsal, hjour, hx⟩ := mem_hitPairs salles jours valX q.id jk hjk
      refine ⟨jk.2.numero, rfl, ?_, rfl⟩
      have hx1 : valX q.id jk.1.id jk.2.numero = 1 := by
        rcases hxbin q.id jk.1.id jk.2.numero with h | h
        · rw [h] at hx
          exact absurd hx half_not_lt_zero
        · exact h
      have hsum := hlink q hq jk.1 hsal jk.2 hjour
      rw [hx1] at hsum
      have hbin : ∀ v ∈ S.map (fun s => valY q.id jk.1.id s jk.2.numero),
          v = 0 ∨ v = 1 := by
        intro v hv
        rcases List.mem_map.mp hv with ⟨s, _, hvs⟩
        rw [← hvs]
        exact hybin q.id jk.1.id s jk.2.numero
      have hlen := sum01_filter_one _ hbin hsum
      show (surgeonsFor S valY q.id jk.1.id jk.2.numero).length = 1
      unfold surgeonsFor
      rw [length_filter_comp (fun s => valY q.id jk.1.id s jk.2.numero)
        (fun v => decide ((1:ℚ)/2 < v)) S]
      exact hlen
    · split at hrq
      · rw [List.mem_singleton] at hrq
        subst hrq
        exact absurd hst (by simp [unallocRec])
      · exact absurd hrq (by simp)
  · intro p hp hx0 sal hsal s hs d hd
    have hsum := hlink p hp sal hsal d hd
    rw [hx0 sal hsal d hd] at hsum
    have hbin : ∀ v ∈ S.map (fun s' => valY p.id sal.id s' d.numero),
        v = 0 ∨ v = 1 := by
      intro v hv
      rcases List.mem_map.mp hv with ⟨s', _, hvs⟩
      rw [← hvs]
      exact hybin p.id sal.id s' d.numero
    exact sum01_zero _ hbin hsum _ (List.mem_map.mpr ⟨s, hs, rfl⟩)

theorem link_single_surgeon_witness :
    (∀ i j s k, oneY i j s k = 0 ∨ oneY i j s k = 1) ∧
    (∀ i j k, oneX i j k = 0 ∨ oneX i j k = 1) ∧
    (∀ p ∈ ([⟨"P1", "N", "P", 60, 2⟩] : List Patient),
      ∀ sal ∈ ([⟨"S1", "Bloc", 480⟩] : List Salle),
      ∀ d ∈ ([⟨1, "2026-01-05"⟩] : List Jour),
      ((["C1"].map (fun s => oneY p.id sal.id s d.numero)).sum =
        oneX p.id sal.id d.numero)) ∧
    ((∀ r ∈ planning_details [⟨"P1", "N", "P", 60, 2⟩] [⟨"S1", "Bloc", 480⟩]
        [⟨1, "2026-01-05"⟩] ["C1"] oneX oneY, r.statut = "Planifié" →
      ∃ k, r.jour_numero = some k ∧
        (surgeonsFor ["C1"] oneY r.patient_id r.salle_id k).length = 1 ∧
        r.chirurgiens = ", ".intercalate (surgeonsFor ["C1"] oneY r.patient_id r.salle_id k)) ∧
    (∀ p ∈ ([⟨"P1", "N", "P", 60, 2⟩] : List Patient),
      (∀ sal ∈ ([⟨"S1", "Bloc", 480⟩] : List Salle),
        ∀ d ∈ ([⟨1, "2026-01-05"⟩] : List Jour), oneX p.id sal.id d.numero = 0) →
      ∀ sal ∈ ([⟨"S1", "Bloc", 480⟩] : List Salle), ∀ s ∈ (["C1"] : List String),
        ∀ d ∈ ([⟨1, "2026-01-05"⟩] : List Jour), oneY p.id sal.id s d.numero = 0)) := by
  have h1 : ∀ i j s k, oneY i j s k = 0 ∨ oneY i j s k = 1 :=
    fun _ _ _ _ => Or.inr rfl
  have h2 : ∀ i j k, oneX i j k = 0 ∨ oneX i j k = 1 :=
    fun _ _ _ => Or.inr rfl
  have h3 : ∀ p ∈ ([⟨"P1", "N", "P", 60, 2⟩] : List Patient),
      ∀ sal ∈ ([⟨"S1", "Bloc", 480⟩] : List Salle),
      ∀ d ∈ ([⟨1, "2026-01-05"⟩] : List Jour),
      ((["C1"].map (fun s => oneY p.id sal.id s d.numero)).sum =
        oneX p.id sal.id d.numero) := by
    intro p _ sal _ d _
    simp [oneX, oneY]
  exact ⟨h1, h2, h3, link_single_surgeon _ _ _ _ _ _ h1 h2 h3⟩

end Clinique
